import Mathlib

/-!
Verification of the vk-execute-packer batching middleware.

The embedding follows `src/packer.go`. The repository's `batch` /
`tokenPool` / `getTokenFromParams` helpers are declared in files that are
not among the provided sources; those definitions are modelled from the
specification (each such definition's doc comment says so).

Go's `api.Params` (a `map[string]interface{}`) is modelled as an
association list from keys to `Value`, where `Value` distinguishes string
values (the only ones the packer inspects, via the credential key) from
everything else. A variadic `...api.Params` argument is a list of such
maps. Machine integers stay well inside 64 bits here, so `Int` models
Go's `int` exactly.

The packer's observable behaviour is captured as a state-transition
system: `handlerStep` is one call of `Packer.Handler` (its outcome is the
synchronous part: forwarded to the underlying transport, a synchronous
admission error, or admitted into the shared batch), `sendStep` is one
call of `Packer.Send`. Batches handed to `sendBatch` (i.e. scheduled for
dispatch) are recorded in the ghost field `dispatched`.
-/

namespace VKPacker

/-- A Go `interface{}` value as far as the packer inspects it: either a
string, or some non-string value. -/
inductive Value where
  | str : String → Value
  | other : Value
deriving DecidableEq, Repr

/-- One `api.Params` map: an association list of parameter names to values. -/
abbrev Params := List (String × Value)

/-- The filter mode, a Go `bool` alias (`type FilterMode bool`). -/
abbrev FilterMode := Bool

/-- Allow mode (`Allow FilterMode = true`). -/
def Allow : FilterMode := true

/-- Ignore mode (`Ignore FilterMode = false`). -/
def Ignore : FilterMode := false

/-- One admitted call record: method name plus the variadic parameter maps
(the completion handler closure is represented by the record's position in
its batch). -/
structure Request where
  method : String
  params : List Params
deriving DecidableEq, Repr

/-- Modelled from the spec: the Pending Batch is "an ordered, mutable
collection of admitted-but-not-yet-sent call records"; the `batch` type's
own file is not among the provided sources. -/
abbrev Batch := List Request

/-- Modelled from the spec: `appendRequest` admits one more call record at
the end of the ordered batch (admission order is batch order); the
`batch` type's own file is not among the provided sources. -/
def appendRequest (b : Batch) (r : Request) : Batch := b ++ [r]

/-- Modelled from the spec: Credential Pool `Append` — "idempotent-ish
insertion" of a token; the `tokenPool` file is not among the provided
sources. A token already present is not duplicated. -/
def tpAppend (pool : List String) (t : String) : List String :=
  if t ∈ pool then pool else pool ++ [t]

/-- Modelled from the spec: `newTokenPool(tokens...)` builds a pool holding
the given tokens; the `tokenPool` file is not among the provided sources. -/
def newTokenPool (tokens : List String) : List String :=
  tokens.foldl tpAppend []

/-- The key under which a call's credential travels in its parameters. -/
def tokenKey : String := "access_token"

/-- Look a credential up in one parameter map. -/
def lookupToken : Params → Option Value
  | [] => none
  | (k, v) :: rest => if k = tokenKey then some v else lookupToken rest

/-- Modelled from the spec: `getTokenFromParams(params...)` extracts the
optional credential attached to a call's parameters (the first value bound
to the credential key across the variadic maps, if any); the helper's file
is not among the provided sources. `none` is Go's `(nil, false)`. -/
def getTokenFromParams : List Params → Option Value
  | [] => none
  | ps :: rest =>
    match lookupToken ps with
    | some v => some v
    | none => getTokenFromParams rest

/-- Go's `token, ok := tokenIface.(string)` type assertion: `some s` when
the extracted value is the string `s`, otherwise `none` (and the asserted
variable is left at the zero value `""`). -/
def asString : Option Value → Option String
  | some (Value.str s) => some s
  | _ => none

/-- The `Packer` struct's state. `dispatched` is a ghost field recording,
in order, every batch handed to `sendBatch` (detached for dispatch); the
`vkHandler` and mutex fields have no counterpart in the sequential model. -/
structure Packer where
  maxPackedRequests : Int
  tokenLazyLoading : Bool
  tokenPool : List String
  filterMode : FilterMode
  filterMethods : List String
  debug : Bool
  batch : Batch
  dispatched : List Batch
deriving DecidableEq, Repr

/-- The four construction-time options (`Option func(*Packer)` values
produced by `MaxPackedRequests`, `Rules`, `Debug`, `Tokens`). -/
inductive POpt where
  | maxPackedRequests (max : Int)
  | rules (mode : FilterMode) (methods : List String)
  | debug
  | tokens (ts : List String)
deriving DecidableEq, Repr

/-- One iteration of `Rules`' loop body: set the filter mode and insert the
method into the filter set. -/
def addRule (mode : FilterMode) (q : Packer) (m : String) : Packer :=
  { q with
      filterMode := mode,
      filterMethods :=
        if m ∈ q.filterMethods then q.filterMethods else q.filterMethods ++ [m] }

/-- Apply one option to a packer, as the corresponding Go closure does.
`maxPackedRequests` stores `max` after the clamp `if max < 1 || max > 25
then max = 25`; `rules` runs its loop over the listed methods; `tokens`
disables lazy loading and replaces the pool. -/
def applyOpt (p : Packer) (o : POpt) : Packer :=
  match o with
  | POpt.maxPackedRequests max =>
    { p with maxPackedRequests := if max < 1 ∨ max > 25 then 25 else max }
  | POpt.rules mode methods => methods.foldl (addRule mode) p
  | POpt.debug => { p with debug := true }
  | POpt.tokens ts =>
    { p with tokenLazyLoading := false, tokenPool := newTokenPool ts }

/-- The default-constructed packer built inside `New`: lazy loading on,
empty pool, maximum 25, `Ignore` mode with an empty set, empty batch. -/
def initPacker : Packer :=
  { maxPackedRequests := 25
    tokenLazyLoading := true
    tokenPool := newTokenPool []
    filterMode := Ignore
    filterMethods := []
    debug := false
    batch := []
    dispatched := [] }

/-- The constructor `New(handler, opts...)`: the default-constructed
packer with each option applied in order. -/
def New (opts : List POpt) : Packer :=
  opts.foldl applyOpt initPacker

/-- The synchronous outcome of one `Handler` call: forwarded straight to
the underlying `vkHandler`, one of the two synchronous admission errors,
or admitted into the shared batch (the caller then blocks on its
completion sink). -/
inductive Outcome where
  | forwarded
  | errMissingToken
  | errBadTokenType
  | admitted
deriving DecidableEq, Repr

/-- The filter bypass condition of `Handler` lines 123-127:
`(p.filterMode == Allow && !found) || (p.filterMode == Ignore && found)`. -/
def bypassFilter (mode : FilterMode) (methods : List String) (m : String) : Bool :=
  (mode == Allow && !(methods.contains m)) || (mode == Ignore && methods.contains m)

/-- The lazy-credential phase of `Handler` (lines 129-141): when lazy
loading is on, extract the credential from the parameters; fail with the
missing-credential error when none was found and the pool is empty; fail
with the bad-type error when it is not a string and the pool is empty;
otherwise append the asserted token — Go's zero value `""` when the
extraction or assertion failed — to the pool. Returns the resulting pool. -/
def credPhase (p : Packer) (params : List Params) : Except Outcome (List String) :=
  if p.tokenLazyLoading then
    let tokenIface := getTokenFromParams params
    if tokenIface = none ∧ p.tokenPool.length = 0 then
      Except.error Outcome.errMissingToken
    else
      let token := asString tokenIface
      if token = none ∧ p.tokenPool.length = 0 then
        Except.error Outcome.errBadTokenType
      else
        Except.ok (tpAppend p.tokenPool (token.getD ""))
  else Except.ok p.tokenPool

/-- The admission critical section of `Handler` (lines 156-162): append the
call to the shared batch and, when the batch's length reaches
`maxPackedRequests`, hand it to `sendBatch` and replace it with a fresh
empty batch. -/
def admitPhase (p : Packer) (method : String) (params : List Params)
    (pool : List String) : Packer × Outcome :=
  let b := appendRequest p.batch (Request.mk method params)
  if (b.length : Int) = p.maxPackedRequests then
    ({ p with tokenPool := pool, batch := [], dispatched := p.dispatched ++ [b] },
      Outcome.admitted)
  else
    ({ p with tokenPool := pool, batch := b }, Outcome.admitted)

/-- One call of `Packer.Handler(method, params...)`: the `"execute"`
bypass, the filter bypass, the lazy-credential phase, then admission into
the shared batch. -/
def handlerStep (p : Packer) (method : String) (params : List Params) :
    Packer × Outcome :=
  if method = "execute" then (p, Outcome.forwarded)
  else if bypassFilter p.filterMode p.filterMethods method then (p, Outcome.forwarded)
  else
    match credPhase p params with
    | Except.error e => (p, e)
    | Except.ok pool => admitPhase p method params pool

/-- One call of `Packer.Send()`: under the lock, if the shared batch is
non-empty, detach it for dispatch and start a fresh one; otherwise do
nothing. -/
def sendStep (p : Packer) : Packer :=
  if p.batch.length > 0 then
    { p with batch := [], dispatched := p.dispatched ++ [p.batch] }
  else p

/-- The states a packer can be in after any interleaving of `Handler` and
`Send` calls starting from a given state. -/
inductive Reachable : Packer → Packer → Prop where
  | refl (p : Packer) : Reachable p p
  | handler (p q : Packer) (m : String) (ps : List Params) :
      Reachable p q → Reachable p (handlerStep q m ps).1
  | send (p q : Packer) : Reachable p q → Reachable p (sendStep q)

/-- Modelled from the spec: the Script Encoder "serializes the ordered
batch into one request body representing invoke method1(params1); ...
return the result list" — encoding is order-preserving, one script entry
per batch element; the encoder's file is not among the provided sources.
The script's remote-specific grammar is left abstract: an entry is the
(method, parameters) pair it encodes. -/
def Encode (b : Batch) : List (String × List Params) :=
  b.map (fun r => (r.method, r.params))

/-- One slot of the decoded response array: a sub-call's result value or
its sub-call-level error. -/
inductive Slot where
  | ok : Value → Slot
  | err : String → Slot
deriving DecidableEq, Repr

/-- Modelled from the spec: the Dispatcher "resolves the i-th
PendingCall's sink with the i-th slot's (value, error) pair, in order";
the dispatcher's file is not among the provided sources. `demux` pairs
each pending call with the response slot that resolves its sink. -/
def demux (b : Batch) (rs : List Slot) : List (Request × Slot) :=
  b.zip rs

/-! ### Helper lemmas about one `Handler` step -/

/-- A non-`"execute"` method meeting the filter bypass condition is
forwarded with the state untouched. -/
lemma handlerStep_bypass (p : Packer) (m : String) (ps : List Params)
    (hm : m ≠ "execute")
    (hb : bypassFilter p.filterMode p.filterMethods m = true) :
    handlerStep p m ps = (p, Outcome.forwarded) := by
  unfold handlerStep
  rw [if_neg hm, if_pos hb]

/-- A non-`"execute"` method failing the filter bypass condition goes
through the credential and admission phases. -/
lemma handlerStep_batchable (p : Packer) (m : String) (ps : List Params)
    (hm : m ≠ "execute")
    (hb : bypassFilter p.filterMode p.filterMethods m = false) :
    handlerStep p m ps =
      match credPhase p ps with
      | Except.error e => (p, e)
      | Except.ok pool => admitPhase p m ps pool := by
  unfold handlerStep
  rw [if_neg hm, if_neg (by simp [hb])]

/-- The credential phase only ever fails with one of the two admission
errors. -/
lemma credPhase_error_cases (p : Packer) (ps : List Params) (e : Outcome)
    (h : credPhase p ps = Except.error e) :
    e = Outcome.errMissingToken ∨ e = Outcome.errBadTokenType := by
  unfold credPhase at h
  by_cases hl : p.tokenLazyLoading = true
  · rw [if_pos hl] at h
    dsimp only at h
    by_cases h1 : getTokenFromParams ps = none ∧ p.tokenPool.length = 0
    · rw [if_pos h1] at h
      exact Or.inl (Except.error.inj h).symm
    · rw [if_neg h1] at h
      by_cases h2 : asString (getTokenFromParams ps) = none ∧ p.tokenPool.length = 0
      · rw [if_pos h2] at h
        exact Or.inr (Except.error.inj h).symm
      · rw [if_neg h2] at h
        cases h
  · rw [if_neg hl] at h
    cases h

/-- With lazy loading off, the credential phase returns the pool
unchanged. -/
lemma credPhase_not_lazy (p : Packer) (ps : List Params)
    (h : p.tokenLazyLoading = false) :
    credPhase p ps = Except.ok p.tokenPool := by
  unfold credPhase
  rw [if_neg (by simp [h])]

/-- Admission never forwards and never errors: its outcome is `admitted`. -/
lemma admitPhase_snd (p : Packer) (m : String) (ps : List Params)
    (pool : List String) :
    (admitPhase p m ps pool).2 = Outcome.admitted := by
  unfold admitPhase
  dsimp only
  split <;> rfl

/-- Admission keeps the supplied pool. -/
lemma admitPhase_tokenPool (p : Packer) (m : String) (ps : List Params)
    (pool : List String) :
    (admitPhase p m ps pool).1.tokenPool = pool := by
  unfold admitPhase
  dsimp only
  split <;> rfl

/-! ### Claim theorems -/

/-- C5 counterexample: the claim says an argument below 1 yields 1, but
`MaxPackedRequests 0` stores 25, not 1. -/
theorem maxPackedRequests_below_one_counterexample :
    (applyOpt (New []) (POpt.maxPackedRequests 0)).maxPackedRequests = 25 ∧
    (applyOpt (New []) (POpt.maxPackedRequests 0)).maxPackedRequests ≠ 1 := by
  constructor <;> decide

/-- C5 (amended): `MaxPackedRequests` stores 25 for every out-of-range
argument — below 1 as well as above 25 — and stores an in-range argument
unchanged. -/
theorem maxPackedRequests_clamp (max : Int) (p : Packer) :
    ((max < 1 ∨ max > 25) →
      (applyOpt p (POpt.maxPackedRequests max)).maxPackedRequests = 25) ∧
    (1 ≤ max → max ≤ 25 →
      (applyOpt p (POpt.maxPackedRequests max)).maxPackedRequests = max) := by
  constructor
  · intro h
    simp only [applyOpt]
    rw [if_pos h]
  · intro h1 h2
    simp only [applyOpt]
    rw [if_neg (by omega)]

/-- C5 witness: `MaxPackedRequests 0` stores 25 and `MaxPackedRequests 7`
stores 7. -/
theorem maxPackedRequests_clamp_witness :
    (applyOpt (New []) (POpt.maxPackedRequests 0)).maxPackedRequests = 25 ∧
    (applyOpt (New []) (POpt.maxPackedRequests 7)).maxPackedRequests = 7 :=
  ⟨(maxPackedRequests_clamp 0 (New [])).1 (by omega),
   (maxPackedRequests_clamp 7 (New [])).2 (by omega) (by omega)⟩

/-- C7: a call whose method is `"execute"` is forwarded to the underlying
transport with the packer state — filter configuration, batch, pool —
completely untouched, whatever the filter mode and method set are. -/
theorem execute_always_forwarded (p : Packer) (ps : List Params) :
    handlerStep p "execute" ps = (p, Outcome.forwarded) := by
  unfold handlerStep
  rw [if_pos rfl]

/-- C8: `Send` dispatches the current batch exactly when it is non-empty:
a non-empty batch is appended to the dispatch history and replaced by a
fresh empty one, while on an empty batch `Send` leaves the state
unchanged. -/
theorem send_dispatches_iff_nonempty (p : Packer) :
    (p.batch ≠ [] →
      sendStep p =
        { p with batch := [], dispatched := p.dispatched ++ [p.batch] }) ∧
    (p.batch = [] → sendStep p = p) := by
  constructor
  · intro h
    unfold sendStep
    rw [if_pos (List.length_pos.mpr h)]
  · intro h
    unfold sendStep
    rw [if_neg (by simp [h])]

/-- A sample request for concrete witnesses. -/
def reqSample : Request := Request.mk "users.get" []

/-- A packer holding one pending request, for concrete witnesses. -/
def pOneReq : Packer := { New [] with batch := [reqSample] }

/-- C8 witness: on a packer with one pending request, `Send` detaches that
batch and empties the shared one; instantiating the same theorem at the
empty packer shows the no-op side. -/
theorem send_dispatches_iff_nonempty_witness :
    (sendStep pOneReq =
      { pOneReq with
          batch := [], dispatched := pOneReq.dispatched ++ [pOneReq.batch] }) ∧
    sendStep (New []) = New [] :=
  ⟨(send_dispatches_iff_nonempty pOneReq).1 (by decide),
   (send_dispatches_iff_nonempty (New [])).2 (by decide)⟩

/-- C9: `Rules` with an empty method list is a no-op — its loop body never
runs — so `Rules(Allow)` with no methods leaves a default-constructed
packer in `Ignore` mode with an empty method set. -/
theorem rules_empty_is_noop (mode : FilterMode) (p : Packer) :
    applyOpt p (POpt.rules mode []) = p ∧
    (New [POpt.rules Allow []]).filterMode = Ignore ∧
    (New [POpt.rules Allow []]).filterMethods = [] :=
  ⟨rfl, rfl, rfl⟩

/-- C6 counterexample: the claim's "bypass exactly when the filter
condition holds" fails at `"execute"`: on a default packer (Ignore mode,
empty set) the filter condition is false, yet the call is forwarded
directly. -/
theorem filter_bypass_iff_counterexample :
    (handlerStep (New []) "execute" []).2 = Outcome.forwarded ∧
    bypassFilter (New []).filterMode (New []).filterMethods "execute" = false := by
  constructor <;> decide

/-- C6 (amended): for every call whose method is not `"execute"`, the call
is forwarded directly to the underlying transport exactly when (Allow mode
and the method is not in the set) or (Ignore mode and the method is in the
set); otherwise it is batchable (it proceeds to admission and is never
forwarded). Calls to `"execute"` are always forwarded regardless of the
filter. -/
theorem filter_bypass_iff (p : Packer) (m : String) (ps : List Params)
    (hm : m ≠ "execute") :
    (handlerStep p m ps).2 = Outcome.forwarded ↔
      bypassFilter p.filterMode p.filterMethods m = true := by
  constructor
  · intro hfwd
    by_contra hb
    rw [handlerStep_batchable p m ps hm (by simpa using hb)] at hfwd
    revert hfwd
    cases hcred : credPhase p ps with
    | error e =>
      rcases credPhase_error_cases p ps e hcred with he | he <;> simp [he]
    | ok pool =>
      simp [admitPhase_snd]
  · intro hb
    rw [handlerStep_bypass p m ps hm hb]

/-- C6 witness: on a default packer the method `"users.get"` fails the
filter condition and is indeed not forwarded (it is admitted). -/
theorem filter_bypass_iff_witness :
    ((handlerStep (New []) "users.get" [[(tokenKey, Value.str "t")]]).2 =
        Outcome.forwarded ↔
      bypassFilter (New []).filterMode (New []).filterMethods "users.get" = true) :=
  filter_bypass_iff (New []) "users.get" [[(tokenKey, Value.str "t")]] (by decide)

/-- C3: with lazy loading on, a batchable call carrying no credential
while the pool is empty fails synchronously with the missing-credential
error, and the packer state — batch, pool, dispatch history — is exactly
what it was: the call never enters the batch and no dispatch occurs. -/
theorem missing_credential_sync_error (p : Packer) (m : String) (ps : List Params)
    (hm : m ≠ "execute")
    (hb : bypassFilter p.filterMode p.filterMethods m = false)
    (hl : p.tokenLazyLoading = true)
    (ht : getTokenFromParams ps = none)
    (hp : p.tokenPool = []) :
    handlerStep p m ps = (p, Outcome.errMissingToken) := by
  rw [handlerStep_batchable p m ps hm hb]
  have hc : credPhase p ps = Except.error Outcome.errMissingToken := by
    unfold credPhase
    rw [if_pos hl]
    dsimp only
    rw [if_pos ⟨ht, by simp [hp]⟩]
  rw [hc]

/-- C3 witness: on a default packer (lazy loading, empty pool), a
`"users.get"` call with no parameters gets the missing-credential error
and leaves the state untouched. -/
theorem missing_credential_sync_error_witness :
    handlerStep (New []) "users.get" [] = (New [], Outcome.errMissingToken) :=
  missing_credential_sync_error (New []) "users.get" []
    (by decide) (by decide) (by decide) (by decide) (by decide)

/-- A lazy-loading packer whose pool already holds one token. -/
def pPoolT : Packer := { New [] with tokenPool := ["t"] }

/-- C4 counterexample: with lazy loading on and a non-empty pool, a call
whose parameters carry no credential is admitted and still causes a value
— Go's zero-value token `""` — to be appended to the pool, contradicting
"never causes any value to be appended". -/
theorem credential_registration_counterexample :
    (handlerStep pPoolT "users.get" []).1.tokenPool = ["t", ""] ∧
    (handlerStep pPoolT "users.get" []).2 = Outcome.admitted ∧
    pPoolT.tokenPool = ["t"] :=
  ⟨by decide, by decide, by decide⟩

/-- C4 (amended): with lazy loading on, an admitted call whose parameters
carry a string credential `s` gets `s` registered into the pool; a call
whose parameters lack a credential or carry a non-string one errors out
(pool unchanged) when the pool is empty, but when the pool is non-empty it
is admitted and the zero-value token `""` is appended to the pool
instead. -/
theorem credential_registration (p : Packer) (m : String) (ps : List Params)
    (hm : m ≠ "execute")
    (hb : bypassFilter p.filterMode p.filterMethods m = false)
    (hl : p.tokenLazyLoading = true) :
    (handlerStep p m ps).1.tokenPool =
      match asString (getTokenFromParams ps) with
      | some s => tpAppend p.tokenPool s
      | none =>
        if p.tokenPool = [] then p.tokenPool else tpAppend p.tokenPool "" := by
  rw [handlerStep_batchable p m ps hm hb]
  unfold credPhase
  rw [if_pos hl]
  dsimp only
  cases htok : getTokenFromParams ps with
  | none =>
    by_cases hp : p.tokenPool = []
    · rw [if_pos ⟨rfl, by simp [hp]⟩]
      simp [asString, hp]
    · have hlen : p.tokenPool.length ≠ 0 := by
        simpa [List.length_eq_zero] using hp
      rw [if_neg (by simp [hlen])]
      rw [if_neg (by simp [hlen])]
      simp [asString, admitPhase_tokenPool, hp]
  | some v =>
    cases v with
    | str s =>
      rw [if_neg (by simp)]
      rw [if_neg (by simp [asString])]
      simp [asString, admitPhase_tokenPool]
    | other =>
      rw [if_neg (by simp)]
      by_cases hp : p.tokenPool = []
      · rw [if_pos ⟨by simp [asString], by simp [hp]⟩]
        simp [asString, hp]
      · have hlen : p.tokenPool.length ≠ 0 := by
          simpa [List.length_eq_zero] using hp
        rw [if_neg (by simp [asString, hlen])]
        simp [asString, admitPhase_tokenPool, hp]

/-- C4 witness: on the one-token lazy packer, a credential-less call's
admission appends the zero-value token to the pool, as the amended claim
computes. -/
theorem credential_registration_witness :
    (handlerStep pPoolT "users.get" []).1.tokenPool =
      match asString (getTokenFromParams []) with
      | some s => tpAppend pPoolT.tokenPool s
      | none =>
        if pPoolT.tokenPool = [] then pPoolT.tokenPool
        else tpAppend pPoolT.tokenPool "" :=
  credential_registration pPoolT "users.get" [] (by decide) (by decide) (by decide)

/-- C10: after the `Tokens` option — even with zero tokens — lazy loading
is off, and on any packer with lazy loading off `Handler` performs no
credential check: no call can get the missing-credential or
bad-credential-type error, and the pool is never modified. -/
theorem tokens_disables_credential_check (ts : List String) (q p : Packer)
    (m : String) (ps : List Params)
    (hp : p.tokenLazyLoading = false) :
    (applyOpt q (POpt.tokens ts)).tokenLazyLoading = false ∧
    (handlerStep p m ps).2 ≠ Outcome.errMissingToken ∧
    (handlerStep p m ps).2 ≠ Outcome.errBadTokenType ∧
    (handlerStep p m ps).1.tokenPool = p.tokenPool := by
  refine ⟨rfl, ?_⟩
  unfold handlerStep
  by_cases hm : m = "execute"
  · rw [if_pos hm]
    exact ⟨by simp, by simp, rfl⟩
  · rw [if_neg hm]
    by_cases hb : bypassFilter p.filterMode p.filterMethods m = true
    · rw [if_pos hb]
      exact ⟨by simp, by simp, rfl⟩
    · rw [if_neg hb]
      rw [credPhase_not_lazy p ps hp]
      exact ⟨by simp [admitPhase_snd], by simp [admitPhase_snd],
        admitPhase_tokenPool p m ps p.tokenPool⟩

/-- A packer constructed with the zero-token `Tokens` option. -/
def pNoLazy : Packer := applyOpt (New []) (POpt.tokens [])

/-- C10 witness: with `Tokens()` applied (no tokens at all), a
credential-less call is admitted without any credential error and the pool
stays empty. -/
theorem tokens_disables_credential_check_witness :
    (applyOpt (New []) (POpt.tokens [])).tokenLazyLoading = false ∧
    (handlerStep pNoLazy "users.get" []).2 ≠ Outcome.errMissingToken ∧
    (handlerStep pNoLazy "users.get" []).2 ≠ Outcome.errBadTokenType ∧
    (handlerStep pNoLazy "users.get" []).1.tokenPool = pNoLazy.tokenPool :=
  tokens_disables_credential_check [] (New []) pNoLazy "users.get" [] (by decide)

/-! ### The batch-size invariant (C1) -/

/-- The `Rules` loop only touches the filter fields. -/
lemma rules_foldl_preserves (mode : FilterMode) (ms : List String) (p : Packer) :
    (List.foldl (addRule mode) p ms).maxPackedRequests = p.maxPackedRequests ∧
    (List.foldl (addRule mode) p ms).batch = p.batch ∧
    (List.foldl (addRule mode) p ms).dispatched = p.dispatched := by
  induction ms generalizing p with
  | nil => exact ⟨rfl, rfl, rfl⟩
  | cons m t ih => exact ih (addRule mode p m)

/-- No option touches the batch or the dispatch history. -/
lemma applyOpt_batch_dispatched (p : Packer) (o : POpt) :
    (applyOpt p o).batch = p.batch ∧ (applyOpt p o).dispatched = p.dispatched := by
  cases o with
  | maxPackedRequests max => exact ⟨rfl, rfl⟩
  | rules mode methods =>
    exact ⟨(rules_foldl_preserves mode methods p).2.1,
      (rules_foldl_preserves mode methods p).2.2⟩
  | debug => exact ⟨rfl, rfl⟩
  | tokens ts => exact ⟨rfl, rfl⟩

/-- Options keep the configured maximum inside `[1, 25]`. -/
lemma applyOpt_max_range (p : Packer) (o : POpt)
    (h1 : 1 ≤ p.maxPackedRequests) (h2 : p.maxPackedRequests ≤ 25) :
    1 ≤ (applyOpt p o).maxPackedRequests ∧
      (applyOpt p o).maxPackedRequests ≤ 25 := by
  cases o with
  | maxPackedRequests max =>
    simp only [applyOpt]
    split
    · exact ⟨by omega, by omega⟩
    · next h => exact ⟨by omega, by omega⟩
  | rules mode methods =>
    have hp := (rules_foldl_preserves mode methods p).1
    exact ⟨hp ▸ h1, hp ▸ h2⟩
  | debug => exact ⟨h1, h2⟩
  | tokens ts => exact ⟨h1, h2⟩

/-- The shared invariant behind C1: the configured maximum is positive,
the shared batch is strictly below it, and every batch ever handed to
dispatch holds between 1 and the maximum calls. -/
def SizeInv (p : Packer) : Prop :=
  1 ≤ p.maxPackedRequests ∧
  (p.batch.length : Int) < p.maxPackedRequests ∧
  ∀ b ∈ p.dispatched, 1 ≤ b.length ∧ (b.length : Int) ≤ p.maxPackedRequests

/-- A freshly constructed packer satisfies the invariant, whatever options
were given. -/
lemma sizeInv_New (opts : List POpt) : SizeInv (New opts) := by
  unfold New
  have main : ∀ (os : List POpt) (p : Packer),
      p.batch = [] → p.dispatched = [] →
      1 ≤ p.maxPackedRequests → p.maxPackedRequests ≤ 25 →
      (os.foldl applyOpt p).batch = [] ∧ (os.foldl applyOpt p).dispatched = [] ∧
        1 ≤ (os.foldl applyOpt p).maxPackedRequests ∧
        (os.foldl applyOpt p).maxPackedRequests ≤ 25 := by
    intro os
    induction os with
    | nil => intro p hb hd h1 h2; exact ⟨hb, hd, h1, h2⟩
    | cons o t ih =>
      intro p hb hd h1 h2
      have hbd := applyOpt_batch_dispatched p o
      have hm := applyOpt_max_range p o h1 h2
      exact ih (applyOpt p o) (hbd.1.trans hb) (hbd.2.trans hd) hm.1 hm.2
  obtain ⟨hb, hd, h1, h2⟩ :=
    main opts initPacker rfl rfl (by norm_num [initPacker]) (by norm_num [initPacker])
  refine ⟨h1, ?_, ?_⟩
  · rw [hb]; simpa using h1
  · rw [hd]; intro b hbm; cases hbm

/-- The admission phase preserves the invariant: an admission that fills
the batch dispatches it at exactly the maximum size, any other admission
keeps the shared batch strictly below the maximum. -/
lemma sizeInv_admitPhase (p : Packer) (m : String) (ps : List Params)
    (pool : List String) (h : SizeInv p) :
    SizeInv (admitPhase p m ps pool).1 := by
  obtain ⟨h1, h2, h3⟩ := h
  unfold admitPhase
  dsimp only
  have hlen : (appendRequest p.batch (Request.mk m ps)).length =
      p.batch.length + 1 := by
    simp [appendRequest]
  split
  · next hfull =>
    refine ⟨h1, by simpa using h1, ?_⟩
    intro b hb
    rcases List.mem_append.mp hb with hmem | hmem
    · exact h3 b hmem
    · have hb2 : b = appendRequest p.batch (Request.mk m ps) := by
        simpa using hmem
      subst hb2
      constructor
      · omega
      · exact le_of_eq hfull
  · next hne =>
    refine ⟨h1, ?_, h3⟩
    rw [hlen] at hne ⊢
    push_cast at hne ⊢
    omega

/-- One `Handler` call preserves the invariant. -/
lemma sizeInv_handlerStep (p : Packer) (m : String) (ps : List Params)
    (h : SizeInv p) : SizeInv (handlerStep p m ps).1 := by
  unfold handlerStep
  by_cases hm : m = "execute"
  · rw [if_pos hm]; exact h
  · rw [if_neg hm]
    by_cases hb : bypassFilter p.filterMode p.filterMethods m = true
    · rw [if_pos hb]; exact h
    · rw [if_neg hb]
      cases hc : credPhase p ps with
      | error e => exact h
      | ok pool => exact sizeInv_admitPhase p m ps pool h

/-- One `Send` call preserves the invariant. -/
lemma sizeInv_sendStep (p : Packer) (h : SizeInv p) : SizeInv (sendStep p) := by
  obtain ⟨h1, h2, h3⟩ := h
  unfold sendStep
  split
  · next hpos =>
    refine ⟨h1, by simpa using h1, ?_⟩
    intro b hb
    rcases List.mem_append.mp hb with hmem | hmem
    · exact h3 b hmem
    · have hb2 : b = p.batch := by simpa using hmem
      subst hb2
      exact ⟨hpos, le_of_lt h2⟩
  · exact ⟨h1, h2, h3⟩

/-- The invariant holds in every reachable state. -/
lemma sizeInv_reachable (q p : Packer) (h : Reachable q p) (hq : SizeInv q) :
    SizeInv p := by
  induction h with
  | refl => exact hq
  | handler r m ps _ ih => exact sizeInv_handlerStep r m ps ih
  | send r _ ih => exact sizeInv_sendStep r ih

/-- C1: in every state reachable from a freshly constructed packer, every
batch handed to dispatch holds between 1 and `maxPackedRequests` calls and
the shared batch stays strictly below `maxPackedRequests`; moreover an
admission that brings the shared batch to exactly `maxPackedRequests`
detaches that full batch for dispatch and leaves a fresh empty shared
batch behind. -/
theorem dispatched_batch_size_bounds (opts : List POpt) (p : Packer)
    (h : Reachable (New opts) p) :
    ((p.batch.length : Int) < p.maxPackedRequests ∧
     ∀ b ∈ p.dispatched, 1 ≤ b.length ∧ (b.length : Int) ≤ p.maxPackedRequests) ∧
    (∀ m ps pool,
      ((appendRequest p.batch (Request.mk m ps)).length : Int) =
          p.maxPackedRequests →
        (admitPhase p m ps pool).1.batch = [] ∧
        (admitPhase p m ps pool).1.dispatched =
          p.dispatched ++ [appendRequest p.batch (Request.mk m ps)]) := by
  have hinv := sizeInv_reachable (New opts) p h (sizeInv_New opts)
  refine ⟨⟨hinv.2.1, hinv.2.2⟩, ?_⟩
  intro m ps pool hfull
  unfold admitPhase
  dsimp only
  rw [if_pos hfull]
  exact ⟨rfl, rfl⟩

/-- C1 witness: the invariant holds at the freshly constructed default
packer (and the flush-at-maximum clause holds there vacuously for the
25-element boundary). -/
theorem dispatched_batch_size_bounds_witness :
    ((((New []).batch.length : Int) < (New []).maxPackedRequests ∧
      ∀ b ∈ (New []).dispatched,
        1 ≤ b.length ∧ (b.length : Int) ≤ (New []).maxPackedRequests) ∧
     ∀ m ps pool,
      ((appendRequest (New []).batch (Request.mk m ps)).length : Int) =
          (New []).maxPackedRequests →
        (admitPhase (New []) m ps pool).1.batch = [] ∧
        (admitPhase (New []) m ps pool).1.dispatched =
          (New []).dispatched ++ [appendRequest (New []).batch (Request.mk m ps)]) :=
  dispatched_batch_size_bounds [] (New []) (Reachable.refl (New []))

/-- C2: within one dispatched batch, admission order equals encode order
equals result order: the i-th script entry encodes the i-th admitted call,
and when the decoded response array has one slot per call, the i-th slot
is the one that resolves the i-th admitted call's completion sink. -/
theorem batch_order_preserved (b : Batch) (rs : List Slot)
    (hlen : rs.length = b.length) (i : Nat) (hi : i < b.length) :
    (Encode b).get ⟨i, by simpa [Encode] using hi⟩ =
      ((b.get ⟨i, hi⟩).method, (b.get ⟨i, hi⟩).params) ∧
    (demux b rs).get ⟨i, by simp only [demux, List.length_zip, hlen]; omega⟩ =
      (b.get ⟨i, hi⟩, rs.get ⟨i, by omega⟩) := by
  constructor
  · simp [Encode, List.get_eq_getElem, List.getElem_map]
  · simp [demux, List.get_eq_getElem, List.getElem_zip]

/-- C2 witness: a concrete two-call batch with a success and an error
slot: the first slot resolves the first call, as the theorem instantiates
at index 0 (and symmetrically at index 1). -/
theorem batch_order_preserved_witness :
    ((Encode [reqSample, Request.mk "account.getInfo" []]).get
        ⟨0, by simp [Encode]⟩ =
      (([reqSample, Request.mk "account.getInfo" []].get ⟨0, by decide⟩).method,
       ([reqSample, Request.mk "account.getInfo" []].get ⟨0, by decide⟩).params) ∧
    (demux [reqSample, Request.mk "account.getInfo" []]
        [Slot.ok (Value.str "1"), Slot.err "e"]).get
        ⟨0, by simp [demux]⟩ =
      ([reqSample, Request.mk "account.getInfo" []].get ⟨0, by decide⟩,
       [Slot.ok (Value.str "1"), Slot.err "e"].get ⟨0, by decide⟩)) :=
  batch_order_preserved [reqSample, Request.mk "account.getInfo" []]
    [Slot.ok (Value.str "1"), Slot.err "e"] (by decide) 0 (by decide)

end VKPacker
